import Mathlib

/-!
Verification development for the ai-code-reviewer review engine.

This file gives a shallow embedding of the core data model and operations:

* `CodeDiff`, `Issue`, `ReviewResult` — the data model of `src/core/reviewer.ts`
  (`ReviewResult.issues` elements are `Issue`s; `severity` is a `String`
  because at runtime the fenced-JSON path passes severity values through
  without validation, so the value space is not the closed enum the
  TypeScript annotation suggests).
* a small backtracking regex engine (`Rx`, `runs`) with JavaScript
  leftmost-match / greedy / backtracking semantics, used to embed the
  literal regular expressions of `OpenAIProvider.parseReviewResponse` and
  `OpenAIProvider.extractSummary`;
* a JSON parser (`pValue`) modelling the fragment of `JSON.parse`
  exercised by fenced model responses (numbers are embedded as integers;
  `\u` escapes and fractional or exponent number forms are outside the
  model — inputs using them simply fail to parse here);
* `parseReviewResponse`, `extractSummary` — the response interpreter of
  `src/ai/openai.ts`;
* `matchPatterns`, `keepDiff`, `filterDiffs` — the filter policy of
  `CodeReviewer.filterDiffs` / `CodeReviewer.matchPatterns`;
* `review` — the orchestration control flow of `CodeReviewer.review`,
  with the external calls (platform, model client, notifications)
  supplied as oracles returning `Except String _` (a thrown JS error is
  `Except.error`);
* `sendReviewNotification` / `sendSummaryNotification` — the
  notification fan-out of `src/notifications/default.ts`, instrumented
  with an event trace recording which external calls were attempted.
-/

namespace AiReview

/-- One review finding, mirroring the element type of
`ReviewResult.issues` in `src/core/reviewer.ts`.  `severity` is a raw
string: the TypeScript union annotation is not enforced at runtime on
the fenced-JSON path. -/
structure Issue where
  line : Option Int
  severity : String
  message : String
  suggestion : Option String
  code : Option String
deriving Repr, DecidableEq

/-- `ReviewResult` of `src/core/reviewer.ts`. -/
structure ReviewResult where
  file : String
  issues : List Issue
  summary : String
deriving Repr, DecidableEq

/-- `CodeDiff` of `src/core/reviewer.ts`. -/
structure CodeDiff where
  oldPath : String
  newPath : String
  oldContent : String
  newContent : String
  diffContent : String
  language : Option String
deriving Repr, DecidableEq

/-! ## A small regex engine with JavaScript matching semantics

The scanners in `parseReviewResponse` and `extractSummary` are literal
JavaScript regexes.  We embed them via an AST (`Rx`) and a backtracking
matcher (`runs`) that returns all ways a regex can match a prefix of the
input, in JavaScript preference order (greedy quantifiers and `?` prefer
to match; alternations prefer the left branch); the engine's first
result is the JavaScript match. -/

/-- Character classes appearing in the embedded regexes: `.` (any char
except newline, no `s` flag), `\d`, `\s` (ASCII whitespace forms), and
`[^\n]`. -/
inductive CClass where
  | any
  | digit
  | ws
  | nonNl
deriving Repr, DecidableEq

def CClass.mem (k : CClass) (c : Char) : Bool :=
  match k with
  | .any => c != '\n'
  | .digit => '0' ≤ c && c ≤ '9'
  | .ws => c == ' ' || c == '\t' || c == '\n' || c == '\r' || c == '\x0b' || c == '\x0c'
  | .nonNl => c != '\n'

/-- Regex AST: literals (case-sensitive `lit` and case-insensitive
`litci` for the `/i` flag), classes, concatenation, alternation, greedy
`?` `*` `+`, numbered capture groups, and the `$` anchor. -/
inductive Rx where
  | eps
  | lit (c : Char)
  | litci (c : Char)
  | cls (k : CClass)
  | cat (a b : Rx)
  | alt (a b : Rx)
  | opt (a : Rx)
  | star (a : Rx)
  | plus (a : Rx)
  | grp (i : Nat) (a : Rx)
  | eos
deriving Repr, DecidableEq

/-- JavaScript whitespace (ASCII forms; `\s` also covers rarely-used
Unicode spaces that cannot occur in the inputs considered here). -/
def isWsChar (c : Char) : Bool :=
  c == ' ' || c == '\t' || c == '\n' || c == '\r' || c == '\x0b' || c == '\x0c'

/-- `String.prototype.trim` on the character list. -/
def trimChars (w : List Char) : List Char :=
  ((w.dropWhile isWsChar).reverse.dropWhile isWsChar).reverse

/-- `String.prototype.trim`. -/
def jsTrim (s : String) : String :=
  String.mk (trimChars s.data)

/-- `String.prototype.split` with a non-empty separator (fuel-driven so
that the kernel can evaluate it; `w.length` fuel always suffices). -/
def splitOnSepAux (s0 : Char) (srest : List Char) : Nat → List Char → List (List Char)
  | _, [] => [[]]
  | 0, w => [w]
  | Nat.succ fuel, c :: rest =>
    if (s0 :: srest).isPrefixOf (c :: rest) then
      [] :: splitOnSepAux s0 srest fuel (rest.drop srest.length)
    else
      match splitOnSepAux s0 srest fuel rest with
      | [] => [[c]]
      | piece :: pieces => (c :: piece) :: pieces

def splitOnSep (s0 : Char) (srest : List Char) (w : List Char) : List (List Char) :=
  splitOnSepAux s0 srest w.length w

/-- Capture environment: most recent capture for a group index first. -/
abbrev Caps := List (Nat × List Char)

def lookupCap (i : Nat) (caps : Caps) : Option (List Char) :=
  (caps.find? (fun p => p.1 == i)).map (fun p => p.2)

/-- The part of `s` consumed by a match that left `rest`. -/
def consumedBy (s rest : List Char) : List Char :=
  s.take (s.length - rest.length)

/-- All ways `r` can match a prefix of `s`, in JavaScript preference
order; each result is the remaining input paired with the capture
environment.  As in JavaScript, a quantified body is not repeated on an
empty match (`star` requires progress).  Fuel bounds the recursion
depth; every concrete use supplies enough fuel for full evaluation. -/
def runs : Nat → Rx → List Char → Caps → List (List Char × Caps)
  | 0, _, _, _ => []
  | Nat.succ fuel, r, s, caps =>
    match r with
    | .eps => [(s, caps)]
    | .lit c =>
      match s with
      | [] => []
      | d :: rest => if d = c then [(rest, caps)] else []
    | .litci c =>
      match s with
      | [] => []
      | d :: rest => if d.toLower = c.toLower then [(rest, caps)] else []
    | .cls k =>
      match s with
      | [] => []
      | d :: rest => if k.mem d then [(rest, caps)] else []
    | .cat a b =>
      (runs fuel a s caps).flatMap (fun m => runs fuel b m.1 m.2)
    | .alt a b => runs fuel a s caps ++ runs fuel b s caps
    | .opt a => runs fuel a s caps ++ [(s, caps)]
    | .star a =>
      (runs fuel a s caps).flatMap
        (fun m => if m.1.length < s.length then runs fuel (.star a) m.1 m.2 else [])
      ++ [(s, caps)]
    | .plus a => runs fuel (.cat a (.star a)) s caps
    | .grp i a =>
      (runs fuel a s caps).map (fun m => (m.1, (i, consumedBy s m.1) :: m.2))
    | .eos =>
      match s with
      | [] => [([], caps)]
      | _ :: _ => []

def Rx.size : Rx → Nat
  | .eps => 1
  | .lit _ => 1
  | .litci _ => 1
  | .cls _ => 1
  | .eos => 1
  | .cat a b => a.size + b.size + 1
  | .alt a b => a.size + b.size + 1
  | .opt a => a.size + 1
  | .star a => a.size + 1
  | .plus a => 2 * a.size + 3
  | .grp _ a => a.size + 1

/-- Fuel ample for the patterns in this file (no nested quantifiers). -/
def fuelFor (r : Rx) (s : List Char) : Nat :=
  (s.length + 2) * (r.size + 2) + 2

/-- Unanchored leftmost search, as a JavaScript regex `exec`: try each
start position from the left; at the first position where the regex
matches, return the captures of the preferred match together with the
input remaining after the matched text. -/
def searchSplit (r : Rx) : List Char → Option (Caps × List Char)
  | [] =>
    match (runs (fuelFor r []) r [] []).head? with
    | some m => some (m.2, m.1)
    | none => none
  | c :: t =>
    match (runs (fuelFor r (c :: t)) r (c :: t) []).head? with
    | some m => some (m.2, m.1)
    | none => searchSplit r t

/-- Right-nested literal word. -/
def litStr (w : List Char) : Rx :=
  w.foldr (fun c acc => Rx.cat (.lit c) acc) .eps

/-- Case-insensitive literal word (for the `/i` flag). -/
def litStrCI (w : List Char) : Rx :=
  w.foldr (fun c acc => Rx.cat (.litci c) acc) .eps

/-! ## The line-scan of `parseReviewResponse`

`const problemRegex = /(\d+)?\s*[:：]\s*(?:\[(error|warning|info)\]\s*)?([^\n]+)/g`
(`src/ai/openai.ts`), applied with `exec` in a loop. -/

/-- The severity alternation `(error|warning|info)` — note: lowercase
literals, no `i` flag on `problemRegex`. -/
def sevAlt : Rx :=
  .alt (litStr "error".data) (.alt (litStr "warning".data) (litStr "info".data))

/-- AST of `problemRegex`. -/
def problemRx : Rx :=
  .cat (.opt (.grp 1 (.plus (.cls .digit))))
  (.cat (.star (.cls .ws))
  (.cat (.alt (.lit ':') (.lit '：'))
  (.cat (.star (.cls .ws))
  (.cat (.opt (.cat (.lit '[') (.cat (.grp 2 sevAlt) (.cat (.lit ']') (.star (.cls .ws))))))
        (.grp 3 (.plus (.cls .nonNl)))))))

def digitsToNat (w : List Char) : Nat :=
  w.foldl (fun acc c => acc * 10 + (c.toNat - '0'.toNat)) 0

/-- Build one issue from an `exec` match, as the loop body does:
`line = match[1] ? parseInt(match[1], 10) : undefined`,
`severity = match[2] || 'info'`, `message = match[3].trim()`. -/
def mkIssue (caps : Caps) : Issue :=
  { line := (lookupCap 1 caps).map (fun w => Int.ofNat (digitsToNat w))
  , severity := match lookupCap 2 caps with
      | some w => String.mk w
      | none => "info"
  , message := String.mk (trimChars ((lookupCap 3 caps).getD []))
  , suggestion := none
  , code := none }

def scanIssuesAux (r : Rx) : Nat → List Char → List Issue
  | 0, _ => []
  | Nat.succ fuel, s =>
    match searchSplit r s with
    | none => []
    | some (caps, rest) => mkIssue caps :: scanIssuesAux r fuel rest

/-- The `while (match !== null)` loop over `problemRegex.exec(content)`:
each global `exec` resumes after the end of the previous match. -/
def scanIssues (content : String) : List Issue :=
  scanIssuesAux problemRx (content.length + 1) content.data

/-! ## `extractSummary`

`content.match(/(?:总结|总体评价|Summary)[:：]\s*([^\n]+)(?:\n\n|$)/i)`,
else the last `'\n\n'`-separated paragraph, trimmed.  The `/i` flag only
affects the cased letters of `Summary`. -/

def summaryRx : Rx :=
  .cat (.alt (litStr "总结".data) (.alt (litStr "总体评价".data) (litStrCI "Summary".data)))
  (.cat (.alt (.lit ':') (.lit '：'))
  (.cat (.star (.cls .ws))
  (.cat (.grp 1 (.plus (.cls .nonNl)))
        (.alt (litStr "\n\n".data) .eos))))

def lastParagraph (content : String) : String :=
  String.mk (trimChars ((splitOnSep '\n' ['\n'] content.data).getLastD []))

def extractSummary (content : String) : String :=
  match searchSplit summaryRx content.data with
  | some (caps, _) =>
    match lookupCap 1 caps with
    | some w => String.mk (trimChars w)
    | none => lastParagraph content
  | none => lastParagraph content

/-! ## Fenced-block extraction

`content.match(/```json\n([\s\S]*?)\n```/) || content.match(/```([\s\S]*?)```/)`
— leftmost start, lazy (shortest) middle; the JSON path is then taken
only if the captured group is truthy (non-empty). -/

/-- Split at the first occurrence of `needle`, returning the part
before it and the part after it. -/
def splitFirst (needle : List Char) : List Char → Option (List Char × List Char)
  | [] => if needle.isEmpty then some ([], []) else none
  | c :: rest =>
    if needle.isPrefixOf (c :: rest) then some ([], (c :: rest).drop needle.length)
    else
      match splitFirst needle rest with
      | some (pre, post) => some (c :: pre, post)
      | none => none

/-- Group of the first regex: text between the first ` ```json⏎ ` and
the next `⏎``` ` after it. -/
def fenceJson (content : List Char) : Option (List Char) :=
  match splitFirst "```json\n".data content with
  | some (_, after) =>
    match splitFirst "\n```".data after with
    | some (mid, _) => some mid
    | none => none
  | none => none

/-- Group of the fallback regex: text between the first ` ``` ` and the
next ` ``` `. -/
def fenceAny (content : List Char) : Option (List Char) :=
  match splitFirst "```".data content with
  | some (_, after) =>
    match splitFirst "```".data after with
    | some (mid, _) => some mid
    | none => none
  | none => none

/-- `jsonMatch[1]`: the JS `||` keeps the first regex's match object
whenever it matched at all, even with an empty group. -/
def jsonMatchGroup (content : String) : Option String :=
  match fenceJson content.data with
  | some g => some (String.mk g)
  | none => (fenceAny content.data).map String.mk

/-- `if (jsonMatch && jsonMatch[1])`: an empty captured group is falsy,
so the fenced path is skipped for it. -/
def fencedTaken (content : String) : Option String :=
  match jsonMatchGroup content with
  | some g => if g = "" then none else some g
  | none => none

/-! ## A JSON parser for the fenced path

Models `JSON.parse` on the fragment reachable from model responses:
objects, arrays, strings with the standard single-character escapes,
integer numbers, `true`/`false`/`null`.  Fractional/exponent numbers
and `\u` escapes are outside the model: such inputs fail to parse here.
Duplicate object keys are kept in order; lookups take the last
occurrence, as `JSON.parse` does. -/

inductive Json where
  | null
  | bool (b : Bool)
  | num (n : Int)
  | str (s : String)
  | arr (items : List Json)
  | obj (fields : List (String × Json))

def lbrace : Char := '\x7b'

def rbrace : Char := '\x7d'

def skipWsJ : List Char → List Char
  | [] => []
  | c :: rest =>
    if c == ' ' || c == '\t' || c == '\n' || c == '\r' then skipWsJ rest else c :: rest

def escChar (e : Char) : Option Char :=
  if e = '"' then some '"'
  else if e = '\\' then some '\\'
  else if e = '/' then some '/'
  else if e = 'n' then some '\n'
  else if e = 't' then some '\t'
  else if e = 'r' then some '\r'
  else if e = 'b' then some '\x08'
  else if e = 'f' then some '\x0c'
  else none

/-- Body of a JSON string after its opening quote: returns the decoded
characters and the input after the closing quote. -/
def pStringAux : List Char → Option (List Char × List Char)
  | [] => none
  | '"' :: rest => some ([], rest)
  | '\\' :: rest =>
    match rest with
    | [] => none
    | e :: rest2 =>
      match escChar e with
      | some c => (pStringAux rest2).map (fun p => (c :: p.1, p.2))
      | none => none
  | c :: rest => (pStringAux rest).map (fun p => (c :: p.1, p.2))

def takeDigits : List Char → List Char × List Char
  | [] => ([], [])
  | c :: rest =>
    if c.isDigit then
      let p := takeDigits rest
      (c :: p.1, p.2)
    else ([], c :: rest)

mutual

def pValue : Nat → List Char → Option (Json × List Char)
  | 0, _ => none
  | Nat.succ fuel, cs =>
    match skipWsJ cs with
    | [] => none
    | c :: rest =>
      if c = lbrace then
        match skipWsJ rest with
        | [] => none
        | d :: rest2 =>
          if d = rbrace then some (.obj [], rest2)
          else pObjFields fuel (d :: rest2) []
      else if c = '[' then
        match skipWsJ rest with
        | [] => none
        | d :: rest2 =>
          if d = ']' then some (.arr [], rest2)
          else pArrItems fuel (d :: rest2) []
      else if c = '"' then
        (pStringAux rest).map (fun p => (.str (String.mk p.1), p.2))
      else if c = '-' then
        match takeDigits rest with
        | ([], _) => none
        | (ds, rest2) => some (.num (-(Int.ofNat (digitsToNat ds))), rest2)
      else if c.isDigit then
        match takeDigits (c :: rest) with
        | (ds, rest2) => some (.num (Int.ofNat (digitsToNat ds)), rest2)
      else if "true".data.isPrefixOf (c :: rest) then
        some (.bool true, (c :: rest).drop 4)
      else if "false".data.isPrefixOf (c :: rest) then
        some (.bool false, (c :: rest).drop 5)
      else if "null".data.isPrefixOf (c :: rest) then
        some (.null, (c :: rest).drop 4)
      else none

def pArrItems : Nat → List Char → List Json → Option (Json × List Char)
  | 0, _, _ => none
  | Nat.succ fuel, cs, acc =>
    match pValue fuel cs with
    | none => none
    | some (j, rest) =>
      match skipWsJ rest with
      | ',' :: rest2 => pArrItems fuel rest2 (acc ++ [j])
      | ']' :: rest2 => some (.arr (acc ++ [j]), rest2)
      | _ => none

def pObjFields : Nat → List Char → List (String × Json) → Option (Json × List Char)
  | 0, _, _ => none
  | Nat.succ fuel, cs, acc =>
    match skipWsJ cs with
    | [] => none
    | c :: rest =>
      if c = '"' then
        match pStringAux rest with
        | none => none
        | some (key, rest2) =>
          match skipWsJ rest2 with
          | ':' :: rest3 =>
            match pValue fuel rest3 with
            | none => none
            | some (j, rest4) =>
              match skipWsJ rest4 with
              | [] => none
              | d :: rest5 =>
                if d = ',' then pObjFields fuel rest5 (acc ++ [(String.mk key, j)])
                else if d = rbrace then some (.obj (acc ++ [(String.mk key, j)]), rest5)
                else none
          | _ => none
      else none

end

/-- `JSON.parse` on a whole string: one value, then only whitespace. -/
def jsonParseStr (s : String) : Option Json :=
  match pValue (s.length + 1) s.data with
  | some (j, rest) => if skipWsJ rest = [] then some j else none
  | none => none

/-- Last-occurrence field lookup (duplicate keys: last one wins, as in
`JSON.parse`). -/
def lookupLast (k : String) (fs : List (String × Json)) : Option Json :=
  fs.foldl (fun acc p => if p.1 = k then some p.2 else acc) none

/-- Projection of one element of `parsed.issues` onto the issue shape.
JavaScript passes the parsed objects through verbatim; this model reads
the named fields, representing an absent or non-string text field as
`""`/`none` and an absent or non-numeric `line` as `none`. -/
def issueOfJson : Json → Issue
  | .obj fs =>
    { line := match lookupLast "line" fs with
        | some (.num n) => some n
        | _ => none
    , severity := match lookupLast "severity" fs with
        | some (.str s) => s
        | _ => ""
    , message := match lookupLast "message" fs with
        | some (.str s) => s
        | _ => ""
    , suggestion := match lookupLast "suggestion" fs with
        | some (.str s) => some s
        | _ => none
    , code := match lookupLast "code" fs with
        | some (.str s) => some s
        | _ => none }
  | _ => { line := none, severity := "", message := "", suggestion := none, code := none }

/-- `parsed.summary || ''`: the embedded summary when it is a (truthy)
string, `''` otherwise. -/
def embeddedSummary (fs : List (String × Json)) : String :=
  match lookupLast "summary" fs with
  | some (.str s) => s
  | _ => ""

/-- The fenced-JSON path of `parseReviewResponse`: taken only when the
fenced group is non-empty, `JSON.parse` succeeds, and the parsed value
has an `issues` field holding an array (`parsed.issues &&
Array.isArray(parsed.issues)`); any failure falls through to the text
scan. -/
def fencedPath (content : String) : Option (List Issue × String) :=
  match fencedTaken content with
  | none => none
  | some g =>
    match jsonParseStr g with
    | some (Json.obj fs) =>
      match lookupLast "issues" fs with
      | some (Json.arr xs) => some (xs.map issueOfJson, embeddedSummary fs)
      | _ => none
    | _ => none

/-- `OpenAIProvider.parseReviewResponse` (`src/ai/openai.ts`): fenced
JSON first; else the `problemRegex` line scan; if that found nothing and
the text is non-empty, a single fixed fallback finding (severity
`info`, message `审查反馈` — "review feedback", suggestion the trimmed
text); summary from `extractSummary` on the non-fenced paths.  The
source's outermost `try`/`catch` guards code that cannot throw, so it
has no counterpart here. -/
def parseReviewResponse (content filePath : String) : ReviewResult :=
  match fencedPath content with
  | some (issues, summary) => { file := filePath, issues := issues, summary := summary }
  | none =>
    let scanned := scanIssues content
    if scanned.isEmpty && jsTrim content != "" then
      { file := filePath
      , issues := [{ line := none, severity := "info", message := "审查反馈"
                   , suggestion := some (jsTrim content), code := none }]
      , summary := extractSummary content }
    else
      { file := filePath, issues := scanned, summary := extractSummary content }

/-! ## `CodeReviewer.matchPatterns`

```
if (pattern.includes('*')) {
  const regexPattern = pattern.replace(/\./g, '\\.').replace(/\*/g, '.*')
  return new RegExp(`^${regexPattern}$`).test(filePath)
}
return filePath === pattern
```
Only `.` is escaped before `*` is expanded, so any other regex
metacharacter in the pattern keeps its regex meaning.  We embed the two
textual replacements literally and parse the resulting regex source
into `Rx`.  The parser covers the constructs such sources can contain
— literals, `\·` escapes of non-alphanumerics, `.`, postfix `*`/`+` —
and rejects sources using other metacharacters (`|()[]{}?^$`, escaped
alphanumerics); for those `regexTest` conservatively returns `false`,
placing such patterns outside the model. -/

/-- `pattern.replace(/\./g, '\\.').replace(/\*/g, '.*')`. -/
def globToRegexChars (p : List Char) : List Char :=
  let step1 := p.flatMap (fun c => if c = '.' then ['\\', '.'] else [c])
  step1.flatMap (fun c => if c = '*' then ['.', '*'] else [c])

def rxMeta (c : Char) : Bool :=
  c == '|' || c == '(' || c == ')' || c == '[' || c == ']' ||
  c == '?' || c == '^' || c == '$' || c == lbrace || c == rbrace

/-- Sequential regex-source parser: `acc` is the regex so far, `last`
the most recent atom (the target of a postfix quantifier). -/
def parseRxGo : List Char → Rx → Option Rx → Option Rx
  | [], acc, none => some acc
  | [], acc, some a => some (.cat acc a)
  | '\\' :: rest, acc, last =>
    match rest with
    | [] => none
    | c :: rest2 =>
      if c.isAlphanum then none
      else
        match last with
        | none => parseRxGo rest2 acc (some (.lit c))
        | some a => parseRxGo rest2 (.cat acc a) (some (.lit c))
  | '*' :: rest, acc, last =>
    match last with
    | none => none
    | some a => parseRxGo rest acc (some (.star a))
  | '+' :: rest, acc, last =>
    match last with
    | none => none
    | some a => parseRxGo rest acc (some (.plus a))
  | '.' :: rest, acc, last =>
    match last with
    | none => parseRxGo rest acc (some (.cls .any))
    | some a => parseRxGo rest (.cat acc a) (some (.cls .any))
  | c :: rest, acc, last =>
    if rxMeta c then none
    else
      match last with
      | none => parseRxGo rest acc (some (.lit c))
      | some a => parseRxGo rest (.cat acc a) (some (.lit c))

def parseRx (cs : List Char) : Option Rx :=
  parseRxGo cs .eps none

/-- `new RegExp('^' + body + '$').test(path)` for a parseable body: the
anchors make it a full match of the whole path. -/
def regexTest (body : List Char) (path : String) : Bool :=
  match parseRx body with
  | some r => !(runs (fuelFor (Rx.cat r Rx.eos) path.data) (Rx.cat r Rx.eos) path.data []).isEmpty
  | none => false

def matchOnePattern (filePath : String) (pattern : String) : Bool :=
  if pattern.data.contains '*' then regexTest (globToRegexChars pattern.data) filePath
  else filePath == pattern

/-- `CodeReviewer.matchPatterns` (`patterns.some(...)`). -/
def matchPatterns (filePath : String) (patterns : List String) : Bool :=
  patterns.any (matchOnePattern filePath)

/-- The glob semantics as the specification words them: `*` matches any
character sequence and every other pattern character is literal.
Stated from the spec for comparison with `matchOnePattern`; it is not
part of the embedded source. -/
def listSuffixes : List Char → List (List Char)
  | [] => [[]]
  | c :: s => (c :: s) :: listSuffixes s

def specGlob : List Char → List Char → Bool
  | [], s => s.isEmpty
  | '*' :: ps, s => (listSuffixes s).any (fun t => specGlob ps t)
  | _ :: _, [] => false
  | p :: ps, c :: s => p == c && specGlob ps s

/-! ## `CodeReviewer.filterDiffs` -/

/-- The `review` section of the configuration; absent lists are
`none` (JS `undefined` is falsy, `[]` is truthy). -/
structure ReviewConfig where
  ignoreFiles : Option (List String)
  ignorePaths : Option (List String)
  includePatterns : Option (List String)
  excludePatterns : Option (List String)
deriving Repr, DecidableEq

/-- Rule 1 condition: `ignoreFiles && this.matchPatterns(filePath, ignoreFiles)`. -/
def dropByIgnoreFiles (cfg : ReviewConfig) (p : String) : Bool :=
  match cfg.ignoreFiles with
  | some ps => matchPatterns p ps
  | none => false

/-- Rule 2 condition: `ignorePaths && ignorePaths.some(path => filePath.startsWith(path))`
— a literal string-prefix test. -/
def dropByIgnorePaths (cfg : ReviewConfig) (p : String) : Bool :=
  match cfg.ignorePaths with
  | some ps => ps.any (fun q => q.data.isPrefixOf p.data)
  | none => false

/-- Rule 3 condition: `includePatterns && includePatterns.length > 0`
and the path matches none of them. -/
def dropByMissingInclude (cfg : ReviewConfig) (p : String) : Bool :=
  match cfg.includePatterns with
  | some ps => decide (ps.length > 0) && !matchPatterns p ps
  | none => false

/-- Rule 4 condition: `excludePatterns && this.matchPatterns(filePath, excludePatterns)`. -/
def dropByExclude (cfg : ReviewConfig) (p : String) : Bool :=
  match cfg.excludePatterns with
  | some ps => matchPatterns p ps
  | none => false

/-- The filter predicate of `filterDiffs`, rule for rule in source
order with early `return false`. -/
def keepDiff (cfg : ReviewConfig) (diff : CodeDiff) : Bool :=
  let filePath := diff.newPath
  if dropByIgnoreFiles cfg filePath then false
  else if dropByIgnorePaths cfg filePath then false
  else if dropByMissingInclude cfg filePath then false
  else if dropByExclude cfg filePath then false
  else true

/-- `CodeReviewer.filterDiffs` (`diffs.filter(...)`). -/
def filterDiffs (cfg : ReviewConfig) (diffs : List CodeDiff) : List CodeDiff :=
  diffs.filter (keepDiff cfg)

/-! ## `CodeReviewer.review`

The orchestration of `src/core/reviewer.ts` lines 81–138.  External
calls are oracles; a thrown JS error is `Except.error`.  The body's
single `try`/`catch` logs and rethrows (`throw error`), so every error
raised inside the run propagates to the caller. -/

structure ReviewOracles where
  getCodeDiffs : Except String (List CodeDiff)
  reviewCode : CodeDiff → Except String (Option ReviewResult)
  sendReviewNotification : String → ReviewResult → Except String Unit
  generateSummary : List ReviewResult → Except String String
  sendSummaryNotification : String → Except String Unit

/-- The `for (const diff of filteredDiffs)` loop: review the file; on a
truthy result push it and notify; any thrown error aborts the loop (no
per-file catch exists). -/
def reviewLoop (o : ReviewOracles) : List CodeDiff → List ReviewResult → Except String (List ReviewResult)
  | [], results => .ok results
  | diff :: rest, results =>
    match o.reviewCode diff with
    | .error e => .error e
    | .ok none => reviewLoop o rest results
    | .ok (some r) =>
      match o.sendReviewNotification diff.newPath r with
      | .error e => .error e
      | .ok _ => reviewLoop o rest (results ++ [r])

/-- `CodeReviewer.review`: fetch, early-return on zero diffs, filter,
per-file loop, then (only when results exist) summary generation and —
when the summary text is truthy — the summary notification.  The
outer `catch` rethrows, so errors pass through. -/
def review (cfg : ReviewConfig) (o : ReviewOracles) : Except String (List ReviewResult) :=
  match o.getCodeDiffs with
  | .error e => .error e
  | .ok diffs =>
    if diffs.length = 0 then .ok []
    else
      match reviewLoop o (filterDiffs cfg diffs) [] with
      | .error e => .error e
      | .ok results =>
        if results.length > 0 then
          match o.generateSummary results with
          | .error e => .error e
          | .ok summary =>
            if summary != "" then
              match o.sendSummaryNotification summary with
              | .error e => .error e
              | .ok _ => .ok results
            else .ok results
        else .ok results

/-! ## `DefaultNotificationManager` (`src/notifications/default.ts`)

Both channels of `sendReviewNotification` (and of
`sendSummaryNotification`) sit inside one shared `try`/`catch` whose
handler only logs; the webhook helper `sendWecomNotification` has its
own inner `try`/`catch`.  The model returns the error escaping to the
caller (always `none`, by that outer catch) together with the trace of
external calls attempted. -/

structure WecomConfig where
  enabled : Bool
  webhook : Option String
deriving Repr, DecidableEq

structure NotificationConfig where
  gitlab_comment : Option Bool
  wecom : Option WecomConfig
deriving Repr, DecidableEq

/-- External calls a notification run can attempt. -/
inductive NotifyEvent where
  | comment (file : String) (line : Option Int) (message : String)
  | summaryComment (summary : String)
  | webhook (url : String) (content : String)
deriving Repr, DecidableEq

/-- Outcomes of the platform and webhook calls. -/
structure NotifyEnv where
  submitComment : String → Option Int → String → Except String Unit
  submitSummary : String → Except String Unit
  webhookFetch : String → String → Except String Unit

/-- `{error:'❌',warning:'⚠️',info:'ℹ️'}[issue.severity]` interpolated:
an unknown severity yields the string `"undefined"`. -/
def severityEmoji (s : String) : String :=
  if s = "error" then "❌"
  else if s = "warning" then "⚠️"
  else if s = "info" then "ℹ️"
  else "undefined"

def formatIssueComment (issue : Issue) : String :=
  let base := severityEmoji issue.severity ++ " **" ++ issue.message ++ "**\n\n"
  let base := match issue.suggestion with
    | some s => if s != "" then base ++ "建议: " ++ s ++ "\n\n" else base
    | none => base
  match issue.code with
  | some c => if c != "" then base ++ "示例代码:\n```\n" ++ c ++ "\n```\n" else base
  | none => base

/-- `this.config.wecom?.enabled && this.config.wecom.webhook` (an empty
webhook string is falsy). -/
def wecomOn (cfg : NotificationConfig) : Bool :=
  match cfg.wecom with
  | some w =>
    w.enabled && (match w.webhook with
                  | some u => u != ""
                  | none => false)
  | none => false

/-- `sendWecomNotification`: truncate past 4000 characters, POST, and
swallow any failure in the inner `catch` — so it contributes its
attempted call to the trace and never an error. -/
def sendWecomNotification (cfg : NotificationConfig) (env : NotifyEnv)
    (title content : String) : List NotifyEvent :=
  match cfg.wecom with
  | some w =>
    match w.webhook with
    | some url =>
      if url = "" then []
      else
        let truncated :=
          if content.data.length > 4000 then String.mk (content.data.take 4000) ++ "...(内容过长已截断)"
          else content
        let body := "### " ++ title ++ "\n\n" ++ truncated
        let _ := env.webhookFetch url body
        [.webhook url body]
    | none => []
  | none => []

/-- The platform-comment loop of `sendReviewNotification`: one
`submitReviewComment` per issue; a throw aborts the loop, with the
failing call already attempted. -/
def commentLoop (env : NotifyEnv) (filePath : String) :
    List Issue → Option String × List NotifyEvent
  | [] => (none, [])
  | issue :: rest =>
    let message := formatIssueComment issue
    match env.submitComment filePath issue.line message with
    | .error e => (some e, [.comment filePath issue.line message])
    | .ok _ =>
      let p := commentLoop env filePath rest
      (p.1, .comment filePath issue.line message :: p.2)

/-- `DefaultNotificationManager.sendReviewNotification`: platform
comments, then the webhook, both inside one `try`/`catch` that logs and
swallows.  Returns the error reaching the caller (always `none`) and
the trace of attempted calls. -/
def sendReviewNotification (cfg : NotificationConfig) (env : NotifyEnv)
    (filePath : String) (result : ReviewResult) : Option String × List NotifyEvent :=
  let channel1 :=
    if cfg.gitlab_comment = some true then commentLoop env filePath result.issues
    else (none, [])
  let body :=
    match channel1.1 with
    | some e => (some e, channel1.2)
    | none =>
      let t2 :=
        if wecomOn cfg then
          sendWecomNotification cfg env ("🔍 文件 " ++ filePath ++ " 代码审查结果")
            ("发现 " ++ toString result.issues.length ++ " 个问题\n\n" ++ result.summary)
        else []
      (none, channel1.2 ++ t2)
  (none, body.2)

/-- `DefaultNotificationManager.sendSummaryNotification`: platform
summary comment, then the webhook, in one shared `try`/`catch`. -/
def sendSummaryNotification (cfg : NotificationConfig) (env : NotifyEnv)
    (summary : String) : Option String × List NotifyEvent :=
  let body :=
    match env.submitSummary summary with
    | .error e => (some e, [NotifyEvent.summaryComment summary])
    | .ok _ =>
      let t2 :=
        if wecomOn cfg then sendWecomNotification cfg env "📊 代码审查总结" summary
        else []
      (none, NotifyEvent.summaryComment summary :: t2)
  (none, body.2)

/-! ## Concrete fixtures used by the witnesses and counterexamples -/

def diffA : CodeDiff := { oldPath := "a.ts", newPath := "a.ts", oldContent := "old-a"
                        , newContent := "new-a", diffContent := "diff-a", language := some "TypeScript" }

def diffB : CodeDiff := { oldPath := "b.ts", newPath := "b.ts", oldContent := "old-b"
                        , newContent := "new-b", diffContent := "diff-b", language := none }

def diffC : CodeDiff := { oldPath := "c.ts", newPath := "c.ts", oldContent := "old-c"
                        , newContent := "new-c", diffContent := "diff-c", language := none }

def resultFor (f : String) : ReviewResult := { file := f, issues := [], summary := "ok" }

/-- A configuration whose `review` section sets none of the filter lists. -/
def cfgNoFilters : ReviewConfig :=
  { ignoreFiles := none, ignorePaths := none, includePatterns := none, excludePatterns := none }

/-- Oracles for a three-file batch whose second file's model call throws. -/
def oraclesFileTwoThrows : ReviewOracles :=
  { getCodeDiffs := .ok [diffA, diffB, diffC]
  , reviewCode := fun d => if d.newPath = "b.ts" then .error "transport" else .ok (some (resultFor d.newPath))
  , sendReviewNotification := fun _ _ => .ok ()
  , generateSummary := fun _ => .ok "S"
  , sendSummaryNotification := fun _ => .ok () }

/-- Oracles for a one-file batch whose summary-generation call throws. -/
def oraclesSummaryThrows : ReviewOracles :=
  { getCodeDiffs := .ok [diffA]
  , reviewCode := fun d => .ok (some (resultFor d.newPath))
  , sendReviewNotification := fun _ _ => .ok ()
  , generateSummary := fun _ => .error "sumfail"
  , sendSummaryNotification := fun _ => .ok () }

/-- Oracles for an empty change set. -/
def oraclesEmpty : ReviewOracles :=
  { getCodeDiffs := .ok []
  , reviewCode := fun d => .ok (some (resultFor d.newPath))
  , sendReviewNotification := fun _ _ => .ok ()
  , generateSummary := fun _ => .ok "S"
  , sendSummaryNotification := fun _ => .ok () }

/-- Replace only the summary-generation oracle. -/
def setSummaryOracle (o : ReviewOracles) (g : List ReviewResult → Except String String) : ReviewOracles :=
  { o with generateSummary := g }

/-- The claim C7 test input, with the `findings` key the claim uses. -/
def contentFindings : String :=
  "```\n\x7b\"findings\":[\x7b\"severity\":\"error\",\"message\":\"X\"\x7d],\"summary\":\"S\"\x7d\n```"

/-- The same fenced record under the key the code actually reads. -/
def contentIssues : String :=
  "```json\n\x7b\"issues\":[\x7b\"severity\":\"error\",\"message\":\"X\"\x7d],\"summary\":\"S\"\x7d\n```"

/-- A fenced record whose finding carries a severity outside the closed
enum. -/
def contentCritical : String :=
  "```json\n\x7b\"issues\":[\x7b\"severity\":\"critical\",\"message\":\"m\"\x7d]\x7d\n```"

/-- The fenced group of `contentIssues` as a string. -/
def groupIssues : String :=
  "\x7b\"issues\":[\x7b\"severity\":\"error\",\"message\":\"X\"\x7d],\"summary\":\"S\"\x7d"

/-- `JSON.parse` of `groupIssues`: its fields. -/
def fieldsIssues : List (String × Json) :=
  [ ("issues", Json.arr [Json.obj [("severity", Json.str "error"), ("message", Json.str "X")]])
  , ("summary", Json.str "S") ]

/-- The embedded `issues` array of `groupIssues`. -/
def arrIssues : List Json :=
  [Json.obj [("severity", Json.str "error"), ("message", Json.str "X")]]

/-- Notification configuration with both channels enabled. -/
def ncfgBoth : NotificationConfig :=
  { gitlab_comment := some true
  , wecom := some { enabled := true, webhook := some "https://example.test/hook" } }

/-- Environment where the platform comment call throws and the webhook
is healthy. -/
def envCommentThrows : NotifyEnv :=
  { submitComment := fun _ _ _ => .error "comment-fail"
  , submitSummary := fun _ => .ok ()
  , webhookFetch := fun _ _ => .ok () }

def issueE : Issue := { line := none, severity := "error", message := "E", suggestion := none, code := none }

def resultE : ReviewResult := { file := "f.ts", issues := [issueE], summary := "s" }

/-- Configuration fixture for the filter noninterference witness. -/
def cfgLock : ReviewConfig :=
  { ignoreFiles := some ["*.lock"], ignorePaths := none, includePatterns := none, excludePatterns := none }

def diffLock1 : CodeDiff := { oldPath := "p1", newPath := "x.lock", oldContent := "o1"
                            , newContent := "n1", diffContent := "d1", language := some "ts" }

def diffLock2 : CodeDiff := { oldPath := "p2", newPath := "x.lock", oldContent := "o2"
                            , newContent := "n2", diffContent := "d2", language := none }

/-! ## Predicates for the severity-capture invariant of the line scan -/

/-- The three words the severity alternation of `problemRegex` can
consume. -/
def sevOkW (w : List Char) : Prop :=
  w = "error".data ∨ w = "warning".data ∨ w = "info".data

/-- A capture environment whose group 2 (the severity group), if set,
holds one of the three severity words. -/
def capsSevOk (caps : Caps) : Prop :=
  ∀ w, lookupCap 2 caps = some w → sevOkW w

/-- Group 2 appears in the regex only as the severity alternation. -/
def grp2sev : Rx → Bool
  | .eps => true
  | .lit _ => true
  | .litci _ => true
  | .cls _ => true
  | .eos => true
  | .cat a b => grp2sev a && grp2sev b
  | .alt a b => grp2sev a && grp2sev b
  | .opt a => grp2sev a
  | .star a => grp2sev a
  | .plus a => grp2sev a
  | .grp i a => (if i = 2 then decide (a = sevAlt) else true) && grp2sev a

/-! # Theorems -/

set_option maxRecDepth 200000

/-- Claim C2 (confirmed): `parseReviewResponse` never raises — it is a
total function into `ReviewResult` — and whenever the fenced-JSON path
is not taken, the line scan finds no match, and the trimmed text is
non-empty, the result carries exactly one finding with severity `info`,
the fixed review-feedback message (the constant `审查反馈`, "review
feedback"), and the trimmed full text as suggestion. -/
theorem C2_fallback_finding (content filePath : String)
    (hfence : fencedPath content = none)
    (hscan : scanIssues content = [])
    (hnonempty : jsTrim content ≠ "") :
    parseReviewResponse content filePath =
      { file := filePath
      , issues := [{ line := none, severity := "info", message := "审查反馈"
                   , suggestion := some (jsTrim content), code := none }]
      , summary := extractSummary content } := by
  unfold parseReviewResponse
  rw [hfence, hscan]
  simp [hnonempty]

/-- Witness for C2 on the spec's test text `"it looks fine"`. -/
theorem C2_fallback_finding_witness :
    fencedPath "it looks fine" = none ∧ scanIssues "it looks fine" = [] ∧
    jsTrim "it looks fine" ≠ "" ∧
    parseReviewResponse "it looks fine" "a.ts" =
      { file := "a.ts"
      , issues := [{ line := none, severity := "info", message := "审查反馈"
                   , suggestion := some (jsTrim "it looks fine"), code := none }]
      , summary := extractSummary "it looks fine" } :=
  ⟨by decide, by decide, by decide,
    C2_fallback_finding "it looks fine" "a.ts" (by decide) (by decide) (by decide)⟩

/-- Claim C4 (counterexample): the tag `[ERROR]` does not parse to
severity `error` — `problemRegex` has no `i` flag, so the uppercase tag
fails the lowercase alternation and is swallowed into the message, the
severity defaulting to `info`. -/
theorem C4_counterexample :
    (parseReviewResponse "1: [ERROR] bad" "f.ts").issues =
      [{ line := some 1, severity := "info", message := "[ERROR] bad"
       , suggestion := none, code := none }] := by decide

/-- Claim C4 (amended): bracketed severity tags are matched
case-sensitively in lowercase and restricted to
`{error, warning, info}`; an uppercase (`[ERROR]`) or unknown
(`[notice]`) token is treated as an absent tag and the severity
defaults to `info`, the bracketed text staying in the message. -/
theorem C4_severity_tags_lowercase_only :
    (parseReviewResponse "1: [error] bad" "f.ts").issues =
      [{ line := some 1, severity := "error", message := "bad"
       , suggestion := none, code := none }]
    ∧ (parseReviewResponse "1: [ERROR] bad" "f.ts").issues =
      [{ line := some 1, severity := "info", message := "[ERROR] bad"
       , suggestion := none, code := none }]
    ∧ (parseReviewResponse "1: [notice] bad" "f.ts").issues =
      [{ line := some 1, severity := "info", message := "[notice] bad"
       , suggestion := none, code := none }] :=
  ⟨by decide, by decide, by decide⟩

/-- Claim C5 (confirmed): `filterDiffs` is `List.filter` of the
per-file predicate, hence its output is a sublist of the input (subset,
order-preserving, and duplicate-free relative to the input), and the
predicate is exactly the deny-biased conjunction of the four rules in
source order — so a file dropped by any rule is dropped outright and
never re-admitted by a later rule. -/
theorem C5_filter_policy (cfg : ReviewConfig) (diffs : List CodeDiff) :
    List.Sublist (filterDiffs cfg diffs) diffs
    ∧ filterDiffs cfg diffs = diffs.filter (keepDiff cfg)
    ∧ ∀ d : CodeDiff,
        keepDiff cfg d =
          (!dropByIgnoreFiles cfg d.newPath && !dropByIgnorePaths cfg d.newPath
            && !dropByMissingInclude cfg d.newPath && !dropByExclude cfg d.newPath) := by
  refine ⟨List.filter_sublist _, rfl, fun d => ?_⟩
  unfold keepDiff
  cases hf : dropByIgnoreFiles cfg d.newPath <;>
    cases hp : dropByIgnorePaths cfg d.newPath <;>
      cases hm : dropByMissingInclude cfg d.newPath <;>
        cases he : dropByExclude cfg d.newPath <;>
          simp [hf, hp, hm, he]

/-- Claim C6 (counterexample): `matchPatterns` does not implement the
spec's literal glob semantics: in the pattern `fo+*` the `+` keeps its
regex meaning (one-or-more of the previous atom), so the code matches
`foooo`, while under the spec's semantics (`specGlob`, every non-`*`
character literal) it does not. -/
theorem C6_counterexample :
    matchPatterns "foooo" ["fo+*"] = true ∧ specGlob "fo+*".data "foooo".data = false := by
  decide

/-- Claim C6 (amended): a pattern containing `*` is converted by
escaping `.` and replacing `*` with `.*` and matched anchored at both
ends — so `*.lock` matches `yarn.lock` but not `yarn.lock.bak`, and
`.` is literal — but only `.` is escaped, so any other regex
metacharacter (such as `+`) keeps its regex meaning; a pattern without
`*` matches only by exact full-string equality. -/
theorem C6_glob_semantics (path pat : String) (h : pat.data.contains '*' = false) :
    matchPatterns "yarn.lock" ["*.lock"] = true
    ∧ matchPatterns "yarn.lock.bak" ["*.lock"] = false
    ∧ matchOnePattern "foooo" "fo+*" = true
    ∧ matchOnePattern path pat = (path == pat) := by
  refine ⟨by decide, by decide, by decide, ?_⟩
  unfold matchOnePattern
  rw [h]
  simp

/-- Witness for C6 at a `*`-free pattern. -/
theorem C6_glob_semantics_witness :
    ("a.ts" : String).data.contains '*' = false
    ∧ (matchPatterns "yarn.lock" ["*.lock"] = true
       ∧ matchPatterns "yarn.lock.bak" ["*.lock"] = false
       ∧ matchOnePattern "foooo" "fo+*" = true
       ∧ matchOnePattern "b.ts" "a.ts" = ("b.ts" == "a.ts")) :=
  ⟨by decide, C6_glob_semantics "b.ts" "a.ts" (by decide)⟩

/-- Claim C7 (counterexample): on the claim's own test input — a fenced
record under the key `findings` — the interpreter does not use the
embedded array: the code tests `parsed.issues`, the key `findings` is
not read, and the input falls through to the line scan, yielding
neither the embedded findings nor the embedded summary `S`. -/
theorem C7_counterexample :
    (parseReviewResponse contentFindings "f.ts").issues ≠
      [{ line := none, severity := "error", message := "X", suggestion := none, code := none }]
    ∧ (parseReviewResponse contentFindings "f.ts").summary ≠ "S" := by
  decide

/-- Claim C7 (amended): the fenced record's array is read from the key
`issues` (not `findings`); when the fenced group parses to a record
with an `issues` array, the interpreter uses that array verbatim as the
findings and adopts the embedded summary when present (empty string
when absent). -/
theorem C7_fenced_issues_verbatim (content filePath g : String)
    (fs : List (String × Json)) (xs : List Json)
    (hfence : fencedTaken content = some g)
    (hparse : jsonParseStr g = some (Json.obj fs))
    (hissues : lookupLast "issues" fs = some (Json.arr xs)) :
    parseReviewResponse content filePath =
      { file := filePath, issues := xs.map issueOfJson, summary := embeddedSummary fs } := by
  unfold parseReviewResponse fencedPath
  rw [hfence]
  simp [hparse, hissues]

/-- Witness for C7 on the spec's test record keyed `issues`. -/
theorem C7_fenced_issues_verbatim_witness :
    fencedTaken contentIssues = some groupIssues
    ∧ jsonParseStr groupIssues = some (Json.obj fieldsIssues)
    ∧ lookupLast "issues" fieldsIssues = some (Json.arr arrIssues)
    ∧ parseReviewResponse contentIssues "f.ts" =
        { file := "f.ts", issues := arrIssues.map issueOfJson, summary := embeddedSummary fieldsIssues } :=
  ⟨rfl, rfl, rfl,
    C7_fenced_issues_verbatim contentIssues "f.ts" groupIssues fieldsIssues arrIssues rfl rfl rfl⟩

/-- Claim C9 (counterexample): with both channels enabled and a healthy
webhook, a thrown platform-comment call prevents the webhook channel
from being attempted — both channels sit in one shared `try`/`catch`,
so the trace holds only the failed comment attempt and no webhook
event. -/
theorem C9_counterexample :
    sendReviewNotification ncfgBoth envCommentThrows "f.ts" resultE =
      (none, [NotifyEvent.comment "f.ts" none "❌ **E**\n\n"]) := by
  decide

/-- Claim C9 (amended): a failure inside either notification function
is swallowed by the shared `try`/`catch` and never propagated to the
caller; a webhook failure (caught by the inner handler) affects nothing
else; but a platform-comment failure aborts the remaining notification
body, so the webhook channel is not attempted after it. -/
theorem C9_notification_failures_swallowed (cfg : NotificationConfig) (env : NotifyEnv)
    (filePath summary : String) (result : ReviewResult) (e : String)
    (hfail : (commentLoop env filePath result.issues).1 = some e)
    (hon : cfg.gitlab_comment = some true) :
    (sendReviewNotification cfg env filePath result).1 = none
    ∧ (sendSummaryNotification cfg env summary).1 = none
    ∧ (sendReviewNotification cfg env filePath result).2 = (commentLoop env filePath result.issues).2 := by
  refine ⟨rfl, rfl, ?_⟩
  unfold sendReviewNotification
  rw [hon]
  simp [hfail]

/-- Witness for C9 at the two-channel fixture. -/
theorem C9_notification_failures_swallowed_witness :
    (commentLoop envCommentThrows "f.ts" resultE.issues).1 = some "comment-fail"
    ∧ ncfgBoth.gitlab_comment = some true
    ∧ ((sendReviewNotification ncfgBoth envCommentThrows "f.ts" resultE).1 = none
       ∧ (sendSummaryNotification ncfgBoth envCommentThrows "sum").1 = none
       ∧ (sendReviewNotification ncfgBoth envCommentThrows "f.ts" resultE).2 =
           (commentLoop envCommentThrows "f.ts" resultE.issues).2) :=
  ⟨rfl, rfl,
    C9_notification_failures_swallowed ncfgBoth envCommentThrows "f.ts" "sum" resultE "comment-fail" rfl rfl⟩

/-- Claim C10 (confirmed): the filtering decision reads only
`newPath`: two diffs with equal `newPath` and arbitrary other fields
are treated identically by the filter predicate and by `filterDiffs`. -/
theorem C10_filter_reads_only_newPath (cfg : ReviewConfig) (d d' : CodeDiff)
    (h : d.newPath = d'.newPath) :
    keepDiff cfg d = keepDiff cfg d'
    ∧ (filterDiffs cfg [d] = [d] ↔ filterDiffs cfg [d'] = [d']) := by
  have hk : keepDiff cfg d = keepDiff cfg d' := by
    unfold keepDiff
    rw [h]
  refine ⟨hk, ?_⟩
  unfold filterDiffs
  cases hkv : keepDiff cfg d' <;> simp [List.filter_cons, hkv, hk.trans hkv]

/-- If every file before `d` reviews and notifies cleanly and the
review call for `d` throws, the per-file loop propagates that error:
there is no per-file catch. -/
theorem reviewLoop_error_of_mid_failure (o : ReviewOracles) (pre : List CodeDiff)
    (d : CodeDiff) (post : List CodeDiff) (acc : List ReviewResult) (e : String)
    (hpre : ∀ d' ∈ pre, ∃ r, o.reviewCode d' = .ok (some r)
              ∧ o.sendReviewNotification d'.newPath r = .ok ())
    (hd : o.reviewCode d = .error e) :
    reviewLoop o (pre ++ d :: post) acc = .error e := by
  induction pre generalizing acc with
  | nil => simp [reviewLoop, hd]
  | cons x xs ih =>
    obtain ⟨r, hr, hn⟩ := hpre x (by simp)
    simp only [List.cons_append, reviewLoop, hr, hn]
    exact ih _ (fun d' hd' => hpre d' (List.mem_cons_of_mem x hd'))

/-- Claim C1 (counterexample): the spec's 3-file scenario — file #2's
review call throws — does not return two outcomes: `review` rethrows
the error and yields no outcomes at all. -/
theorem C1_counterexample :
    review cfgNoFilters oraclesFileTwoThrows = Except.error "transport" := by
  rfl

/-- Claim C1 (amended): a thrown per-file review call is not caught at
the per-file step: once the loop reaches the failing file (every
earlier filtered file having reviewed and notified cleanly), the error
propagates out of the loop, and the run-level `catch` logs and rethrows
it, so `review` raises and returns no outcomes. -/
theorem C1_per_file_throw_aborts_batch (cfg : ReviewConfig) (o : ReviewOracles)
    (ds pre post : List CodeDiff) (d : CodeDiff) (e : String)
    (hget : o.getCodeDiffs = .ok ds)
    (hne : ds ≠ [])
    (hfilter : filterDiffs cfg ds = pre ++ d :: post)
    (hpre : ∀ d' ∈ pre, ∃ r, o.reviewCode d' = .ok (some r)
              ∧ o.sendReviewNotification d'.newPath r = .ok ())
    (hd : o.reviewCode d = .error e) :
    review cfg o = Except.error e := by
  unfold review
  have hlen : ¬ ds.length = 0 := by
    simpa [List.length_eq_zero] using hne
  have hloop := reviewLoop_error_of_mid_failure o pre d post [] e hpre hd
  simp only [hget, if_neg hlen, hfilter, hloop]

/-- Witness for C1 at the 3-file fixture. -/
theorem C1_per_file_throw_aborts_batch_witness :
    oraclesFileTwoThrows.getCodeDiffs = .ok [diffA, diffB, diffC]
    ∧ ([diffA, diffB, diffC] : List CodeDiff) ≠ []
    ∧ filterDiffs cfgNoFilters [diffA, diffB, diffC] = [diffA] ++ diffB :: [diffC]
    ∧ oraclesFileTwoThrows.reviewCode diffB = .error "transport"
    ∧ review cfgNoFilters oraclesFileTwoThrows = Except.error "transport" :=
  ⟨rfl, by decide, by decide, rfl,
    C1_per_file_throw_aborts_batch cfgNoFilters oraclesFileTwoThrows
      [diffA, diffB, diffC] [diffA] [diffC] diffB "transport"
      rfl (by decide) (by decide)
      (fun d' hd' => by
        simp only [List.mem_singleton] at hd'
        subst hd'
        exact ⟨resultFor "a.ts", rfl, rfl⟩)
      rfl⟩

/-- Replacing the summary oracle does not change the per-file loop. -/
theorem reviewLoop_setSummary (o : ReviewOracles) (g : List ReviewResult → Except String String)
    (l : List CodeDiff) (acc : List ReviewResult) :
    reviewLoop (setSummaryOracle o g) l acc = reviewLoop o l acc := by
  induction l generalizing acc with
  | nil => rfl
  | cons d rest ih =>
    simp only [reviewLoop]
    rw [show (setSummaryOracle o g).reviewCode = o.reviewCode from rfl,
        show (setSummaryOracle o g).sendReviewNotification = o.sendReviewNotification from rfl]
    cases hrc : o.reviewCode d with
    | error e => simp only [hrc]
    | ok r? =>
      cases r? with
      | none => simpa only [hrc] using ih _
      | some r =>
        simp only [hrc]
        cases hn : o.sendReviewNotification d.newPath r with
        | error e => simp only [hn]
        | ok u => simpa only [hn] using ih _

/-- Claim C3 (counterexample): with one successful outcome, a thrown
summary-generation call does not leave the outcome in the result:
`review` rethrows and the outcome is lost. -/
theorem C3_counterexample :
    review cfgNoFilters oraclesSummaryThrows = Except.error "sumfail" := by
  rfl

/-- Claim C3 (amended): the summarize step is entered only when at
least one outcome exists — with no outcomes the run result is
independent of the summary oracle — but when outcomes exist and the
summary-generation call throws, the failure is not confined to the
summarize step: the run-level `catch` rethrows it and `review` raises,
returning none of the per-file outcomes. -/
theorem C3_summary_throw_aborts_run (cfg : ReviewConfig) (o : ReviewOracles)
    (g : List ReviewResult → Except String String)
    (ds : List CodeDiff) (results : List ReviewResult) (e : String) :
    (review cfg o = .ok [] → review cfg (setSummaryOracle o g) = .ok [])
    ∧ (o.getCodeDiffs = .ok ds → ds ≠ [] →
       reviewLoop o (filterDiffs cfg ds) [] = .ok results → results ≠ [] →
       o.generateSummary results = .error e → review cfg o = Except.error e) := by
  constructor
  · intro h
    unfold review at h ⊢
    simp only [reviewLoop_setSummary,
      show (setSummaryOracle o g).getCodeDiffs = o.getCodeDiffs from rfl,
      show (setSummaryOracle o g).generateSummary = g from rfl,
      show (setSummaryOracle o g).sendSummaryNotification = o.sendSummaryNotification from rfl]
    cases hget : o.getCodeDiffs with
    | error e' =>
      simp only [hget] at h
      exact absurd h (by simp)
    | ok ds' =>
      simp only [hget] at h ⊢
      by_cases hlen : ds'.length = 0
      · simp only [if_pos hlen]
      · simp only [if_neg hlen] at h ⊢
        cases hloop : reviewLoop o (filterDiffs cfg ds') [] with
        | error e' =>
          simp only [hloop] at h
          exact absurd h (by simp)
        | ok results' =>
          simp only [hloop] at h ⊢
          by_cases hres : results'.length > 0
          · exfalso
            simp only [if_pos hres] at h
            have hres' : results' ≠ [] := by
              intro hnil
              rw [hnil] at hres
              exact absurd hres (by simp)
            cases hgen : o.generateSummary results' with
            | error e' =>
              simp only [hgen] at h
              exact absurd h (by simp)
            | ok s =>
              simp only [hgen] at h
              by_cases hs : (s != "") = true
              · simp only [if_pos hs] at h
                cases hnot : o.sendSummaryNotification s with
                | error e' =>
                  simp only [hnot] at h
                  exact absurd h (by simp)
                | ok u =>
                  simp only [hnot, Except.ok.injEq] at h
                  exact hres' h
              · simp only [if_neg hs, Except.ok.injEq] at h
                exact hres' h
          · simp only [if_neg hres] at h ⊢
            exact h
  · intro hget hne hloop hres hgen
    unfold review
    have hlen : ¬ ds.length = 0 := by
      simpa [List.length_eq_zero] using hne
    have hlen' : results.length > 0 := List.length_pos.mpr hres
    simp only [hget, if_neg hlen, hloop, if_pos hlen', hgen]

/-- Witness for C3: the zero-outcome conjunct at the empty fixture, the
throwing conjunct at the one-file fixture. -/
theorem C3_summary_throw_aborts_run_witness :
    review cfgNoFilters oraclesEmpty = .ok []
    ∧ review cfgNoFilters (setSummaryOracle oraclesEmpty (fun _ => .error "never")) = .ok []
    ∧ oraclesSummaryThrows.getCodeDiffs = .ok [diffA]
    ∧ reviewLoop oraclesSummaryThrows (filterDiffs cfgNoFilters [diffA]) [] = .ok [resultFor "a.ts"]
    ∧ oraclesSummaryThrows.generateSummary [resultFor "a.ts"] = .error "sumfail"
    ∧ review cfgNoFilters oraclesSummaryThrows = Except.error "sumfail" :=
  ⟨rfl,
    (C3_summary_throw_aborts_run cfgNoFilters oraclesEmpty (fun _ => .error "never")
      [] [] "sumfail").1 rfl,
    rfl, rfl, rfl,
    (C3_summary_throw_aborts_run cfgNoFilters oraclesSummaryThrows (fun _ => .error "never")
      [diffA] [resultFor "a.ts"] "sumfail").2 rfl (by decide) rfl (by decide) rfl⟩

/-- Witness for C10: two diffs sharing `newPath` but differing in every
other field. -/
theorem C10_filter_reads_only_newPath_witness :
    diffLock1.newPath = diffLock2.newPath
    ∧ (keepDiff cfgLock diffLock1 = keepDiff cfgLock diffLock2
       ∧ (filterDiffs cfgLock [diffLock1] = [diffLock1] ↔ filterDiffs cfgLock [diffLock2] = [diffLock2])) :=
  ⟨rfl, C10_filter_reads_only_newPath cfgLock diffLock1 diffLock2 rfl⟩

/-! ## The severity-capture invariant of the line scan (for claim C8) -/

theorem mem_of_head? {α : Type} {l : List α} {a : α} (h : l.head? = some a) : a ∈ l := by
  cases l with
  | nil => simp at h
  | cons x xs =>
    simp at h
    subst h
    exact List.mem_cons_self x xs

theorem runs_lit_mem {c : Char} {fuel : Nat} {s : List Char} {caps : Caps}
    {m : List Char × Caps} (hm : m ∈ runs fuel (Rx.lit c) s caps) :
    m.2 = caps ∧ s = c :: m.1 := by
  match fuel, s with
  | 0, _ => simp [runs] at hm
  | Nat.succ f, [] => simp [runs] at hm
  | Nat.succ f, d :: rest =>
    simp only [runs] at hm
    by_cases hdc : d = c
    · rw [if_pos hdc] at hm
      simp at hm
      subst hm
      exact ⟨rfl, by rw [hdc]⟩
    · rw [if_neg hdc] at hm
      simp at hm

theorem runs_litStr_mem : ∀ (w : List Char) (fuel : Nat) (s : List Char) (caps : Caps)
    (m : List Char × Caps), m ∈ runs fuel (litStr w) s caps → m.2 = caps ∧ s = w ++ m.1 := by
  intro w
  induction w with
  | nil =>
    intro fuel s caps m hm
    cases fuel with
    | zero => simp [runs] at hm
    | succ f =>
      simp only [litStr, List.foldr_nil, runs, List.mem_singleton] at hm
      subst hm
      exact ⟨rfl, rfl⟩
  | cons c w ih =>
    intro fuel s caps m hm
    cases fuel with
    | zero => simp [runs] at hm
    | succ f =>
      simp only [litStr, List.foldr_cons, runs, List.mem_flatMap] at hm
      obtain ⟨m1, hm1, hm2⟩ := hm
      obtain ⟨hc1, hc2⟩ := runs_lit_mem hm1
      obtain ⟨hc3, hc4⟩ := ih f m1.1 m1.2 m hm2
      refine ⟨hc3.trans hc1, ?_⟩
      rw [hc2, hc4]
      rfl

theorem consumedBy_append (w rest : List Char) : consumedBy (w ++ rest) rest = w := by
  unfold consumedBy
  rw [List.length_append, Nat.add_sub_cancel, List.take_left]

theorem runs_sevAlt_mem : ∀ (fuel : Nat) (s : List Char) (caps : Caps)
    (m : List Char × Caps), m ∈ runs fuel sevAlt s caps →
    m.2 = caps ∧ sevOkW (consumedBy s m.1) := by
  intro fuel s caps m hm
  match fuel with
  | 0 => simp [runs] at hm
  | Nat.succ f =>
    simp only [sevAlt, runs, List.mem_append] at hm
    rcases hm with hm | hm
    · obtain ⟨h1, h2⟩ := runs_litStr_mem _ _ _ _ _ hm
      subst h2
      exact ⟨h1, Or.inl (consumedBy_append _ _)⟩
    · match f with
      | 0 => simp [runs] at hm
      | Nat.succ f2 =>
        simp only [runs, List.mem_append] at hm
        rcases hm with hm | hm
        · obtain ⟨h1, h2⟩ := runs_litStr_mem _ _ _ _ _ hm
          subst h2
          exact ⟨h1, Or.inr (Or.inl (consumedBy_append _ _))⟩
        · obtain ⟨h1, h2⟩ := runs_litStr_mem _ _ _ _ _ hm
          subst h2
          exact ⟨h1, Or.inr (Or.inr (consumedBy_append _ _))⟩

theorem capsSevOk_nil : capsSevOk [] := by
  intro w hw
  simp [lookupCap] at hw

/-- Every capture environment a match of a `grp2sev` regex can produce
keeps the severity invariant: group 2 only ever holds one of the three
severity words. -/
theorem runs_capsSevOk : ∀ (fuel : Nat) (r : Rx) (s : List Char) (caps : Caps)
    (m : List Char × Caps), grp2sev r = true → m ∈ runs fuel r s caps →
    capsSevOk caps → capsSevOk m.2 := by
  intro fuel
  induction fuel with
  | zero =>
    intro r s caps m _ hm _
    simp [runs] at hm
  | succ f ih =>
    intro r s caps m hg hm hc
    cases r with
    | eps =>
      simp only [runs, List.mem_singleton] at hm
      subst hm
      exact hc
    | lit c =>
      rw [(runs_lit_mem hm).1]
      exact hc
    | litci c =>
      match s with
      | [] => simp [runs] at hm
      | d :: rest =>
        simp only [runs] at hm
        by_cases hdc : d.toLower = c.toLower
        · rw [if_pos hdc] at hm
          simp at hm
          subst hm
          exact hc
        · rw [if_neg hdc] at hm
          simp at hm
    | cls k =>
      match s with
      | [] => simp [runs] at hm
      | d :: rest =>
        simp only [runs] at hm
        by_cases hdc : k.mem d
        · rw [if_pos hdc] at hm
          simp at hm
          subst hm
          exact hc
        · rw [if_neg hdc] at hm
          simp at hm
    | eos =>
      match s with
      | [] =>
        simp only [runs, List.mem_singleton] at hm
        subst hm
        exact hc
      | _ :: _ => simp [runs] at hm
    | cat a b =>
      simp only [runs, List.mem_flatMap] at hm
      obtain ⟨m1, hm1, hm2⟩ := hm
      simp only [grp2sev, Bool.and_eq_true] at hg
      exact ih b m1.1 m1.2 m hg.2 hm2 (ih a s caps m1 hg.1 hm1 hc)
    | alt a b =>
      simp only [runs, List.mem_append] at hm
      simp only [grp2sev, Bool.and_eq_true] at hg
      rcases hm with hm | hm
      · exact ih a s caps m hg.1 hm hc
      · exact ih b s caps m hg.2 hm hc
    | opt a =>
      simp only [runs, List.mem_append, List.mem_singleton] at hm
      rcases hm with hm | hm
      · exact ih a s caps m (by simpa [grp2sev] using hg) hm hc
      · subst hm
        exact hc
    | star a =>
      have hga : grp2sev a = true := by simpa [grp2sev] using hg
      simp only [runs, List.mem_append, List.mem_flatMap, List.mem_singleton] at hm
      rcases hm with ⟨m1, hm1, hm2⟩ | hm
      · by_cases hlt : m1.1.length < s.length
        · rw [if_pos hlt] at hm2
          exact ih (.star a) m1.1 m1.2 m (by simpa [grp2sev] using hg) hm2
            (ih a s caps m1 hga hm1 hc)
        · rw [if_neg hlt] at hm2
          simp at hm2
      · subst hm
        exact hc
    | plus a =>
      have hga : grp2sev a = true := by simpa [grp2sev] using hg
      simp only [runs] at hm
      exact ih (.cat a (.star a)) s caps m (by simp [grp2sev, hga]) hm hc
    | grp i a =>
      simp only [runs, List.mem_map] at hm
      obtain ⟨m1, hm1, hm2⟩ := hm
      simp only [grp2sev, Bool.and_eq_true] at hg
      subst hm2
      intro w hw
      by_cases hi : i = 2
      · subst hi
        have ha : a = sevAlt := by
          have := hg.1
          rw [if_pos rfl] at this
          exact of_decide_eq_true this
        subst ha
        unfold lookupCap at hw
        simp only [List.find?] at hw
        rw [show ((2 : Nat) == 2) = true from rfl] at hw
        simp at hw
        obtain ⟨_, hok⟩ := runs_sevAlt_mem f s caps m1 hm1
        rw [← hw]
        exact hok
      · have hw' : lookupCap 2 m1.2 = some w := by
          unfold lookupCap at hw ⊢
          simp only [List.find?] at hw
          rw [show ((i : Nat) == 2) = false from by simp [hi]] at hw
          exact hw
        exact ih a s caps m1 hg.2 hm1 hc w hw'

theorem searchSplit_capsSevOk (r : Rx) (hg : grp2sev r = true) :
    ∀ (s : List Char) (caps : Caps) (rest : List Char),
    searchSplit r s = some (caps, rest) → capsSevOk caps := by
  intro s
  induction s with
  | nil =>
    intro caps rest h
    unfold searchSplit at h
    cases hh : (runs (fuelFor r []) r [] []).head? with
    | none => rw [hh] at h; simp at h
    | some m =>
      rw [hh] at h
      simp only [Option.some.injEq, Prod.mk.injEq] at h
      have hmem := mem_of_head? hh
      have := runs_capsSevOk _ r [] [] m hg hmem capsSevOk_nil
      rw [← h.1]
      exact this
  | cons c t ih =>
    intro caps rest h
    unfold searchSplit at h
    cases hh : (runs (fuelFor r (c :: t)) r (c :: t) []).head? with
    | none =>
      rw [hh] at h
      exact ih caps rest h
    | some m =>
      rw [hh] at h
      simp only [Option.some.injEq, Prod.mk.injEq] at h
      have hmem := mem_of_head? hh
      have := runs_capsSevOk _ r (c :: t) [] m hg hmem capsSevOk_nil
      rw [← h.1]
      exact this

theorem grp2sev_problemRx : grp2sev problemRx = true := by decide

theorem mkIssue_sev (caps : Caps) (hc : capsSevOk caps) :
    (mkIssue caps).severity = "info" ∨ (mkIssue caps).severity = "warning"
    ∨ (mkIssue caps).severity = "error" := by
  unfold mkIssue
  cases hx : lookupCap 2 caps with
  | none => simp
  | some w =>
    simp only []
    rcases hc w hx with h | h | h <;> subst h
    · exact Or.inr (Or.inr rfl)
    · exact Or.inr (Or.inl rfl)
    · exact Or.inl rfl

theorem scanIssuesAux_sev : ∀ (fuel : Nat) (s : List Char) (i : Issue),
    i ∈ scanIssuesAux problemRx fuel s →
    i.severity = "info" ∨ i.severity = "warning" ∨ i.severity = "error" := by
  intro fuel
  induction fuel with
  | zero =>
    intro s i hi
    simp [scanIssuesAux] at hi
  | succ f ih =>
    intro s i hi
    unfold scanIssuesAux at hi
    cases hs : searchSplit problemRx s with
    | none =>
      rw [hs] at hi
      simp at hi
    | some p =>
      rw [hs] at hi
      simp only [List.mem_cons] at hi
      rcases hi with hi | hi
      · subst hi
        exact mkIssue_sev p.1 (searchSplit_capsSevOk problemRx grp2sev_problemRx s p.1 p.2
          (by rw [hs]))
      · exact ih p.2 i hi

/-- Claim C8 (counterexample): on the fenced-JSON path severities pass
through without validation — a fenced record with severity `critical`
produces a finding whose severity is outside the closed set, not
defaulted to `info`. -/
theorem C8_counterexample :
    (parseReviewResponse contentCritical "f.ts").issues.all
      (fun i => i.severity == "info" || i.severity == "warning" || i.severity == "error") = false := by
  decide

/-- Claim C8 (amended): on the non-fenced interpretation paths — the
line scan and the non-empty-text fallback — every finding's severity
lies in the closed set `{info, warning, error}` (a missing or unknown
tag defaults to `info`); the fenced-JSON path, by contrast, passes the
embedded severity values through unvalidated. -/
theorem C8_scan_severities_closed (content filePath : String)
    (hfence : fencedPath content = none) :
    (parseReviewResponse content filePath).issues.all
      (fun i => i.severity == "info" || i.severity == "warning" || i.severity == "error") = true := by
  unfold parseReviewResponse
  simp only [hfence]
  split
  · rfl
  · rw [List.all_eq_true]
    intro i hi
    have := scanIssuesAux_sev (content.length + 1) content.data i (by simpa [scanIssues] using hi)
    rcases this with h | h | h <;> simp [h]

/-- Witness for C8 on a plain scanned line. -/
theorem C8_scan_severities_closed_witness :
    fencedPath "1: [error] ok" = none
    ∧ (parseReviewResponse "1: [error] ok" "f.ts").issues.all
        (fun i => i.severity == "info" || i.severity == "warning" || i.severity == "error") = true :=
  ⟨by decide, C8_scan_severities_closed "1: [error] ok" "f.ts" (by decide)⟩

end AiReview
